import Mathlib

/-!
Verification of the vanilla store core of this zustand fork.

The embedding follows `createStoreImpl` (src/unnamed/part_000, lines 197-266):
the mutable closure state (`state`, `listeners`) together with the fresh-object
allocator used by `Object.assign` is reified as a `Store` record, and each of
the four store operations becomes a function over it.  JS objects are modelled
with an explicit allocation identity tag, so that `Object.is` (reference
identity for objects, value identity for primitives) is expressible without a
heap: two live objects are the same JS object exactly when their tags coincide.
-/

/-- JS runtime values as held by a store.  An `obj` carries the allocation
identity tag `id` besides its own enumerable fields (in insertion order);
distinct allocations get distinct tags, which models reference identity. -/
inductive Value where
  | num (n : Int)
  | str (s : String)
  | bool (b : Bool)
  | null
  | undefined
  | obj (id : Nat) (fields : List (String × Value))

/-- Embeds `Object.is(a, b)` (line 222): value comparison for primitives,
reference comparison (identity tags) for objects. -/
def jsIs : Value → Value → Bool
  | .num a, .num b => a == b
  | .str a, .str b => a == b
  | .bool a, .bool b => a == b
  | .null, .null => true
  | .undefined, .undefined => true
  | .obj i _, .obj j _ => i == j
  | _, _ => false

/-- The own enumerable properties of a value, as read by `Object.assign`:
an object contributes its fields, a string its index properties, and the
remaining primitives contribute nothing. -/
def fieldsOf : Value → List (String × Value)
  | .obj _ fs => fs
  | .str s => s.toList.enum.map (fun p => (toString p.1, Value.str p.2.toString))
  | _ => []

/-- First-occurrence key lookup on a field list (JS property read). -/
def lookupField : List (String × Value) → String → Option Value
  | [], _ => none
  | p :: rest, k => if p.1 = k then some p.2 else lookupField rest k

/-- JS property write `target[k] = v`: overwrite in place if the key exists,
append otherwise (insertion order is preserved). -/
def setKey : List (String × Value) → String → Value → List (String × Value)
  | [], k, v => [(k, v)]
  | p :: rest, k, v => if p.1 = k then (k, v) :: rest else p :: setKey rest k v

/-- Assign every property of `src`, in order, onto `target`
(one source step of `Object.assign`). -/
def assignAll (target src : List (String × Value)) : List (String × Value) :=
  src.foldl (fun acc p => setKey acc p.1 p.2) target

/-- The field list produced by `Object.assign({}, a, b)` (line 233). -/
def objectAssign (a b : Value) : List (String × Value) :=
  assignAll (assignAll [] (fieldsOf a)) (fieldsOf b)

/-- Embeds `typeof nextState !== 'object' || nextState === null` (line 231):
`typeof null` is `'object'` in JS but the second disjunct catches it, so the
whole expression is false exactly on (non-null) objects. -/
def nonMergeable : Value → Bool
  | .obj _ _ => false
  | _ => true

/-- Reads `v[k]` of an own enumerable property. -/
def getField (v : Value) (k : String) : Option Value :=
  lookupField (fieldsOf v) k

def isObj : Value → Bool
  | .obj _ _ => true
  | _ => false

def keysOf (fs : List (String × Value)) : List String := fs.map Prod.fst

/-- The mutable closure state of `createStoreImpl` (lines 203-205): the
current snapshot `state`, the captured `initialState`, the listener set
(listeners keyed by identity, modelled as tags, in insertion order), and the
allocator counter handing out fresh object identities for `Object.assign`. -/
structure Store where
  state : Value
  initialState : Value
  listeners : List Nat
  nextObjId : Nat

/-- The first argument of `setState` (source name `partial`): either a direct
candidate value or an updater function applied to the current snapshot. -/
inductive SetStateInput where
  | val (v : Value)
  | fn (f : Value → Value)

/-- One listener invocation `listener(state, previousState)` (line 237):
the listener tag, the new snapshot, and the previous snapshot. -/
abbrev NotifyEvent := Nat × Value × Value

/-- Lines 216-219: `typeof partial === 'function' ? partial(state) : partial`. -/
def computeNext (st : Store) : SetStateInput → Value
  | .fn f => f st.state
  | .val v => v

/-- Embeds `setState` (lines 212-239).  Returns the updated closure state and
the list of listener invocations performed by `listeners.forEach` (one event
per registered listener, in insertion order, carrying `(state, previousState)`).
The merge branch allocates a fresh object (`Object.assign({}, state, nextState)`
writes into a brand-new target), modelled by tagging it `st.nextObjId`. -/
def setState (input : SetStateInput) (replace : Option Bool) (st : Store) :
    Store × List NotifyEvent :=
  let nextState := computeNext st input
  if jsIs nextState st.state then (st, [])
  else
    let previousState := st.state
    let doReplace := replace.getD (nonMergeable nextState)
    let newState :=
      if doReplace then nextState
      else Value.obj st.nextObjId (objectAssign previousState nextState)
    let st' : Store :=
      { st with
        state := newState
        nextObjId := if doReplace then st.nextObjId else st.nextObjId + 1 }
    (st', st'.listeners.map (fun l => (l, newState, previousState)))

/-- Embeds `getState` (line 242). -/
def getState (st : Store) : Value := st.state

/-- Embeds `getInitialState` (lines 245-246). -/
def getInitialState (st : Store) : Value := st.initialState

/-- Embeds `subscribe` (lines 249-254): adds the listener to the set
(`Set.add`: no-op when already present, appended at the end otherwise) and
returns the closure `() => listeners.delete(listener)`. -/
def subscribe (listener : Nat) (st : Store) : Store × (Store → Store) :=
  ({ st with
     listeners :=
       if listener ∈ st.listeners then st.listeners
       else st.listeners ++ [listener] },
   fun s => { s with listeners := s.listeners.filter (fun x => x != listener) })

/-- The `api` record of line 257: the four operations of the store. -/
structure StoreApi where
  setState : SetStateInput → Option Bool → Store → Store × List NotifyEvent
  getState : Store → Value
  getInitialState : Store → Value
  subscribe : Nat → Store → Store × (Store → Store)

/-- `const api = { setState, getState, getInitialState, subscribe }` (line 257). -/
def api : StoreApi :=
  { setState := setState
    getState := getState
    getInitialState := getInitialState
    subscribe := subscribe }

/-- Embeds `createStoreImpl` (lines 197-266): the initializer is applied once
to `(setState, getState, api)` (line 261) and its result seeds both the
current and the initial snapshot; the listener set starts empty.  `firstObjId`
is the allocator state, chosen above every identity tag already in use. -/
def createStoreImpl
    (createState :
      (SetStateInput → Option Bool → Store → Store × List NotifyEvent) →
      (Store → Value) → StoreApi → Value)
    (firstObjId : Nat) : Store :=
  let initialState := createState setState getState api
  { state := initialState
    initialState := initialState
    listeners := []
    nextObjId := firstObjId }

/-- A sequence of `setState` calls, returning the final closure state and the
concatenated listener invocations. -/
def runCalls (st : Store) : List (SetStateInput × Option Bool) →
    Store × List NotifyEvent
  | [] => (st, [])
  | c :: cs =>
    let r := setState c.1 c.2 st
    let r' := runCalls r.1 cs
    (r'.1, r.2 ++ r'.2)

/-! ### Field-lookup lemmas for the merge -/

theorem optOr_assoc (a b c : Option Value) : (a.or b).or c = a.or (b.or c) := by
  cases a <;> rfl

theorem optOr_none (a : Option Value) : a.or none = a := by
  cases a <;> rfl

/-- Last-occurrence key lookup, describing what repeated assignment leaves. -/
def lookupLast : List (String × Value) → String → Option Value
  | [], _ => none
  | p :: rest, k => (lookupLast rest k).or (if p.1 = k then some p.2 else none)

theorem lookupField_setKey (fs : List (String × Value)) (k : String) (v : Value)
    (k' : String) :
    lookupField (setKey fs k v) k' = if k' = k then some v else lookupField fs k' := by
  induction fs with
  | nil =>
    show (if k = k' then some v else none) = if k' = k then some v else none
    by_cases h : k = k'
    · rw [if_pos h, if_pos h.symm]
    · rw [if_neg h, if_neg (fun hc => h hc.symm)]
  | cons p rest ih =>
    by_cases hp : p.1 = k
    · show lookupField (if p.1 = k then (k, v) :: rest else p :: setKey rest k v) k' = _
      rw [if_pos hp]
      show (if k = k' then some v else lookupField rest k') = _
      by_cases h : k = k'
      · rw [if_pos h, if_pos h.symm]
      · have hpk : ¬p.1 = k' := fun hc => h ((hp.symm.trans hc))
        show _ = if k' = k then some v else lookupField (p :: rest) k'
        rw [if_neg h, if_neg (fun hc => h hc.symm)]
        show lookupField rest k' = if p.1 = k' then some p.2 else lookupField rest k'
        rw [if_neg hpk]
    · show lookupField (if p.1 = k then (k, v) :: rest else p :: setKey rest k v) k' = _
      rw [if_neg hp]
      show (if p.1 = k' then some p.2 else lookupField (setKey rest k v) k') = _
      by_cases hq : p.1 = k'
      · have h : ¬k' = k := fun hc => hp (hq.trans hc)
        rw [if_pos hq]
        show _ = if k' = k then some v else lookupField (p :: rest) k'
        rw [if_neg h]
        show some p.2 = if p.1 = k' then some p.2 else lookupField rest k'
        rw [if_pos hq]
      · rw [if_neg hq, ih]
        show _ = if k' = k then some v else lookupField (p :: rest) k'
        by_cases h : k' = k
        · rw [if_pos h, if_pos h]
        · rw [if_neg h, if_neg h]
          show lookupField rest k' = if p.1 = k' then some p.2 else lookupField rest k'
          rw [if_neg hq]

theorem lookupField_assignAll (src : List (String × Value)) :
    ∀ (target : List (String × Value)) (k : String),
    lookupField (assignAll target src) k =
      (lookupLast src k).or (lookupField target k) := by
  induction src with
  | nil => intro target k; rfl
  | cons p rest ih =>
    intro target k
    have step : assignAll target (p :: rest) = assignAll (setKey target p.1 p.2) rest := rfl
    rw [step, ih, lookupField_setKey]
    show _ = (lookupLast (p :: rest) k).or (lookupField target k)
    have unf : lookupLast (p :: rest) k =
        (lookupLast rest k).or (if p.1 = k then some p.2 else none) := rfl
    rw [unf, optOr_assoc]
    congr 1
    by_cases h : p.1 = k
    · rw [if_pos h.symm, if_pos h]; rfl
    · rw [if_neg (fun hc => h hc.symm), if_neg h]; rfl

theorem lookupLast_eq_none (fs : List (String × Value)) (k : String) :
    k ∉ keysOf fs → lookupLast fs k = none := by
  induction fs with
  | nil => intro _; rfl
  | cons p rest ih =>
    intro h
    simp only [keysOf, List.map_cons, List.mem_cons] at h
    push_neg at h
    show (lookupLast rest k).or (if p.1 = k then some p.2 else none) = none
    rw [ih (by simpa [keysOf] using h.2), if_neg (fun hc => h.1 hc.symm)]
    rfl

theorem lookupLast_eq_lookupField (fs : List (String × Value)) (k : String) :
    (keysOf fs).Nodup → lookupLast fs k = lookupField fs k := by
  induction fs with
  | nil => intro _; rfl
  | cons p rest ih =>
    intro h
    simp only [keysOf, List.map_cons, List.nodup_cons] at h
    show (lookupLast rest k).or (if p.1 = k then some p.2 else none) =
      if p.1 = k then some p.2 else lookupField rest k
    by_cases hp : p.1 = k
    · rw [if_pos hp, if_pos hp,
        lookupLast_eq_none rest k (by rw [← hp]; simpa [keysOf] using h.1)]
      rfl
    · rw [if_neg hp, if_neg hp, ih (by simpa [keysOf] using h.2), optOr_none]

/-! ### Behavioural lemmas about `setState` -/

theorem setState_noop (input : SetStateInput) (replace : Option Bool) (st : Store)
    (h : jsIs (computeNext st input) st.state = true) :
    setState input replace st = (st, []) := by
  simp [setState, h]

theorem setState_initialState (input : SetStateInput) (replace : Option Bool)
    (st : Store) :
    (setState input replace st).1.initialState = st.initialState := by
  by_cases h : jsIs (computeNext st input) st.state <;> simp [setState, h]

theorem setState_listeners (input : SetStateInput) (replace : Option Bool)
    (st : Store) :
    (setState input replace st).1.listeners = st.listeners := by
  by_cases h : jsIs (computeNext st input) st.state <;> simp [setState, h]

theorem setState_events (input : SetStateInput) (replace : Option Bool) (st : Store)
    (h : jsIs (computeNext st input) st.state = false) :
    (setState input replace st).2 =
      st.listeners.map (fun l => (l, (setState input replace st).1.state, st.state)) := by
  simp [setState, h]

theorem setState_state_merge (input : SetStateInput) (replace : Option Bool)
    (st : Store)
    (h : jsIs (computeNext st input) st.state = false)
    (hrep : replace.getD (nonMergeable (computeNext st input)) = false) :
    (setState input replace st).1.state =
      Value.obj st.nextObjId (objectAssign st.state (computeNext st input)) := by
  simp [setState, h, hrep]

theorem setState_state_direct (input : SetStateInput) (replace : Option Bool)
    (st : Store)
    (h : jsIs (computeNext st input) st.state = false)
    (hrep : replace.getD (nonMergeable (computeNext st input)) = true) :
    (setState input replace st).1.state = computeNext st input := by
  simp [setState, h, hrep]

theorem runCalls_initialState (calls : List (SetStateInput × Option Bool)) :
    ∀ st : Store, (runCalls st calls).1.initialState = st.initialState := by
  induction calls with
  | nil => intro st; rfl
  | cons c cs ih =>
    intro st
    show (runCalls (setState c.1 c.2 st).1 cs).1.initialState = st.initialState
    rw [ih, setState_initialState]

theorem runCalls_listeners (calls : List (SetStateInput × Option Bool)) :
    ∀ st : Store, (runCalls st calls).1.listeners = st.listeners := by
  induction calls with
  | nil => intro st; rfl
  | cons c cs ih =>
    intro st
    show (runCalls (setState c.1 c.2 st).1 cs).1.listeners = st.listeners
    rw [ih, setState_listeners]

theorem runCalls_events_mem (calls : List (SetStateInput × Option Bool)) :
    ∀ (st : Store) (e : NotifyEvent), e ∈ (runCalls st calls).2 →
      e.1 ∈ st.listeners := by
  induction calls with
  | nil => intro st e h; exact absurd h (List.not_mem_nil e)
  | cons c cs ih =>
    intro st e h
    have h' : e ∈ (setState c.1 c.2 st).2 ∨ e ∈ (runCalls (setState c.1 c.2 st).1 cs).2 := by
      simpa [runCalls] using List.mem_append.mp h
    rcases h' with h1 | h2
    · by_cases hid : jsIs (computeNext st c.1) st.state
      · rw [setState_noop c.1 c.2 st hid] at h1
        exact absurd h1 (List.not_mem_nil e)
      · rw [setState_events c.1 c.2 st (by simpa using hid)] at h1
        obtain ⟨l, hl, he⟩ := List.mem_map.mp h1
        rw [← he]
        exact hl
    · have := ih (setState c.1 c.2 st).1 e h2
      rwa [setState_listeners] at this

/-! ### Sanity examples (concrete evaluation of the embedding) -/

/-- The concrete store of the spec's shallow-merge law: state `{a: 0, b: 2}`. -/
def stAB : Store :=
  { state := .obj 0 [("a", .num 0), ("b", .num 2)]
    initialState := .obj 0 [("a", .num 0), ("b", .num 2)]
    listeners := []
    nextObjId := 1 }

example :
    (setState (.val (.obj 5 [("a", .num 1)])) (some false) stAB).1.state =
      .obj 1 [("a", .num 1), ("b", .num 2)] := rfl

example :
    (setState (.val (.obj 5 [("a", .num 1)])) (some true) stAB).1.state =
      .obj 5 [("a", .num 1)] := rfl

/-- A store with one registered listener (tag 7) and snapshot `{a: 0}`. -/
def stL : Store :=
  { state := .obj 0 [("a", .num 0)]
    initialState := .obj 0 [("a", .num 0)]
    listeners := [7]
    nextObjId := 1 }

/-- A store with snapshot `{a: 0, b: 2}` whose allocator is ahead of the
identity tags in use (state tag 0, a candidate may use tag 5). -/
def stF : Store :=
  { state := .obj 0 [("a", .num 0), ("b", .num 2)]
    initialState := .obj 0 [("a", .num 0), ("b", .num 2)]
    listeners := []
    nextObjId := 10 }

/-- A store with snapshot `{a: 0}` and no listeners. -/
def stC3 : Store :=
  { state := .obj 0 [("a", .num 0)]
    initialState := .obj 0 [("a", .num 0)]
    listeners := []
    nextObjId := 1 }

/-! ### Claim theorems -/

/-- Claim C1: on a store whose snapshot is an object, `setState` with an
object candidate and `replace = false` shallow-merges the candidate over the
current snapshot — the candidate's fields win, fields absent from the
candidate are preserved (whole values, so nothing is deep-merged) — while
`replace = true` makes the candidate the entire new snapshot. -/
theorem setState_shallow_merge_law (st : Store) (cid : Nat)
    (cfs : List (String × Value))
    (hobj : isObj st.state = true)
    (hnds : (keysOf (fieldsOf st.state)).Nodup)
    (hndc : (keysOf cfs).Nodup)
    (hne : jsIs (Value.obj cid cfs) st.state = false) :
    (∀ k v, lookupField cfs k = some v →
      getField (setState (.val (.obj cid cfs)) (some false) st).1.state k = some v) ∧
    (∀ k, lookupField cfs k = none →
      getField (setState (.val (.obj cid cfs)) (some false) st).1.state k =
        getField st.state k) ∧
    (setState (.val (.obj cid cfs)) (some true) st).1.state = Value.obj cid cfs := by
  have hmerge :
      (setState (.val (.obj cid cfs)) (some false) st).1.state =
        Value.obj st.nextObjId (objectAssign st.state (Value.obj cid cfs)) :=
    setState_state_merge _ _ _ hne rfl
  have key : ∀ k,
      getField (setState (.val (.obj cid cfs)) (some false) st).1.state k =
        (lookupField cfs k).or (getField st.state k) := by
    intro k
    rw [hmerge]
    show lookupField (objectAssign st.state (Value.obj cid cfs)) k = _
    rw [objectAssign]
    show lookupField (assignAll (assignAll [] (fieldsOf st.state)) cfs) k = _
    rw [lookupField_assignAll, lookupField_assignAll, lookupLast_eq_lookupField cfs k hndc,
      lookupLast_eq_lookupField (fieldsOf st.state) k hnds,
      show lookupField [] k = none from rfl, optOr_none]
    rfl
  refine ⟨?_, ?_, ?_⟩
  · intro k v h
    rw [key k, h]
    rfl
  · intro k h
    rw [key k, h]
    rfl
  · exact setState_state_direct _ _ _ hne rfl

/-- Claim C1 witness: the spec's concrete shallow-merge law on `{a: 0, b: 2}`. -/
theorem setState_shallow_merge_law_witness :
    getField (setState (.val (.obj 5 [("a", .num 1)])) (some false) stAB).1.state "a" =
      some (.num 1) ∧
    getField (setState (.val (.obj 5 [("a", .num 1)])) (some false) stAB).1.state "b" =
      some (.num 2) ∧
    (setState (.val (.obj 5 [("a", .num 1)])) (some true) stAB).1.state =
      Value.obj 5 [("a", .num 1)] :=
  ⟨(setState_shallow_merge_law stAB 5 [("a", .num 1)] rfl (by decide) (by decide) rfl).1
      "a" (.num 1) rfl,
   (setState_shallow_merge_law stAB 5 [("a", .num 1)] rfl (by decide) (by decide) rfl).2.1
      "b" rfl,
   (setState_shallow_merge_law stAB 5 [("a", .num 1)] rfl (by decide) (by decide) rfl).2.2⟩

/-- Claim C2: a `setState` whose computed candidate is `Object.is`-identical to
the current snapshot is a no-op — the closure state is unchanged and no
listener fires — for every sequence of such calls; and identity is the sole
dedup mechanism: whenever the candidate differs by identity (even if it is
structurally equal), every registered listener fires. -/
theorem setState_identity_noop (st : Store)
    (calls : List (SetStateInput × Option Bool)) :
    ((∀ c ∈ calls, jsIs (computeNext st c.1) st.state = true) →
      runCalls st calls = (st, [])) ∧
    (∀ (input : SetStateInput) (replace : Option Bool),
      jsIs (computeNext st input) st.state = false →
      (setState input replace st).2 =
        st.listeners.map (fun l => (l, (setState input replace st).1.state, st.state))) := by
  constructor
  · induction calls with
    | nil => intro _; rfl
    | cons c cs ih =>
      intro h
      have h1 : jsIs (computeNext st c.1) st.state = true := h c (List.mem_cons_self c cs)
      have h2 : runCalls st cs = (st, []) :=
        ih (fun c' hc' => h c' (List.mem_cons_of_mem c hc'))
      have e1 : setState c.1 c.2 st = (st, []) := setState_noop c.1 c.2 st h1
      show ((runCalls (setState c.1 c.2 st).1 cs).1,
            (setState c.1 c.2 st).2 ++ (runCalls (setState c.1 c.2 st).1 cs).2) = (st, [])
      rw [e1]
      show ((runCalls st cs).1, [] ++ (runCalls st cs).2) = (st, [])
      rw [h2]
      rfl
  · intro input replace h
    exact setState_events input replace st h

/-- Claim C2 witness: two identity-no-op calls on `{a: 0}` leave the store
untouched and fire nothing, while a structurally equal candidate with a
different identity does fire the registered listener. -/
theorem setState_identity_noop_witness :
    runCalls stL
      [(.val (.obj 0 [("a", .num 0)]), none), (.val (.obj 0 [("a", .num 0)]), some true)] =
      (stL, []) ∧
    (setState (.val (.obj 9 [("a", .num 0)])) none stL).2 =
      [(7, (setState (.val (.obj 9 [("a", .num 0)])) none stL).1.state, stL.state)] :=
  ⟨(setState_identity_noop stL
      [(.val (.obj 0 [("a", .num 0)]), none), (.val (.obj 0 [("a", .num 0)]), some true)]).1
      (by intro c hc; rcases hc with _ | ⟨_, hc⟩
          · rfl
          · rcases hc with _ | ⟨_, hc⟩
            · rfl
            · exact absurd hc (List.not_mem_nil c)),
   (setState_identity_noop stL []).2 (.val (.obj 9 [("a", .num 0)])) none rfl⟩

/-- Claim C3 counterexample: on snapshot `{a: 0}` with the non-record
candidate `5` and `replace` passed explicitly as `false`, the claim predicts
the new snapshot is `5` itself; the code instead takes the merge path
(`replace ?? ...` only falls back to the typeof test when `replace` is
`undefined`), producing a fresh object with the old fields. -/
theorem setState_explicit_false_primitive_not_replaced :
    nonMergeable (Value.num 5) = true ∧
    jsIs (Value.num 5) stC3.state = false ∧
    (setState (.val (.num 5)) (some false) stC3).1.state ≠ Value.num 5 ∧
    (setState (.val (.num 5)) (some false) stC3).1.state = Value.obj 1 [("a", .num 0)] := by
  refine ⟨rfl, rfl, ?_, rfl⟩
  intro h
  rw [show (setState (.val (.num 5)) (some false) stC3).1.state =
      Value.obj 1 [("a", .num 0)] from rfl] at h
  exact Value.noConfusion h

/-- Claim C3 (amended): for a candidate that differs by identity from the
current snapshot, the new snapshot is exactly the candidate when the replace
flag is `true`, or when the flag is omitted (`undefined`) and the candidate is
not a record-like value; when `replace` is passed explicitly as `false` the
merge path runs even for non-record candidates. -/
theorem setState_direct_replace_conditions (st : Store) (input : SetStateInput)
    (replace : Option Bool)
    (hne : jsIs (computeNext st input) st.state = false)
    (hcond : replace = some true ∨
      (replace = none ∧ nonMergeable (computeNext st input) = true)) :
    (setState input replace st).1.state = computeNext st input := by
  apply setState_state_direct input replace st hne
  rcases hcond with h | ⟨h1, h2⟩
  · rw [h]; rfl
  · rw [h1]; exact h2

/-- Claim C3 (amended) witness: replace `true` adopts the candidate, and an
omitted flag with a primitive candidate also adopts the candidate. -/
theorem setState_direct_replace_conditions_witness :
    (setState (.val (.num 7)) (some true) stC3).1.state = Value.num 7 ∧
    (setState (.val (.num 5)) none stC3).1.state = Value.num 5 :=
  ⟨setState_direct_replace_conditions stC3 (.val (.num 7)) (some true) rfl (Or.inl rfl),
   setState_direct_replace_conditions stC3 (.val (.num 5)) none rfl (Or.inr ⟨rfl, rfl⟩)⟩

/-- Claim C4: `getInitialState` returns, after any sequence of `setState`
calls, the value the initializer produced at construction, and the initial
snapshot recorded in the closure is never replaced by any `setState`. -/
theorem getInitialState_constant
    (createState :
      (SetStateInput → Option Bool → Store → Store × List NotifyEvent) →
      (Store → Value) → StoreApi → Value)
    (firstObjId : Nat) (calls : List (SetStateInput × Option Bool)) (st : Store) :
    getInitialState (runCalls (createStoreImpl createState firstObjId) calls).1 =
      createState setState getState api ∧
    getInitialState (runCalls st calls).1 = getInitialState st := by
  constructor
  · show (runCalls _ calls).1.initialState = _
    rw [runCalls_initialState]
    rfl
  · exact runCalls_initialState calls st

/-- Claim C5: an accepted mutation (candidate differs by identity) invokes
every currently-registered listener, in registration order, with the pair
(new snapshot, previous snapshot); an identical candidate notifies nobody. -/
theorem setState_notify_contract (st : Store) (input : SetStateInput)
    (replace : Option Bool) :
    (jsIs (computeNext st input) st.state = true →
      setState input replace st = (st, [])) ∧
    (jsIs (computeNext st input) st.state = false →
      (setState input replace st).2 =
        st.listeners.map (fun l => (l, (setState input replace st).1.state, st.state))) :=
  ⟨fun h => setState_noop input replace st h,
   fun h => setState_events input replace st h⟩

/-- Claim C5 witness: on the one-listener store, an identical candidate fires
nothing and an accepted full replace fires the listener with (next, prev). -/
theorem setState_notify_contract_witness :
    setState (.val (.obj 0 [("a", .num 0)])) none stL = (stL, []) ∧
    (setState (.val (.obj 9 [])) (some true) stL).2 =
      [(7, Value.obj 9 [], Value.obj 0 [("a", .num 0)])] :=
  ⟨(setState_notify_contract stL (.val (.obj 0 [("a", .num 0)])) none).1 rfl,
   (setState_notify_contract stL (.val (.obj 9 [])) (some true)).2 rfl⟩

/-- Claim C6: `subscribe` returns a closure that removes exactly the listener
it was created for: after calling it the listener is gone and is never invoked
by later mutations, every other listener is untouched and still notified, and
calling the closure again is a harmless no-op. -/
theorem subscribe_unsubscribe_contract (st : Store) (l : Nat) :
    (∀ s : Store, l ∉ ((subscribe l st).2 s).listeners) ∧
    (∀ (s : Store) (j : Nat), j ≠ l →
      (j ∈ ((subscribe l st).2 s).listeners ↔ j ∈ s.listeners)) ∧
    (∀ s : Store, (subscribe l st).2 ((subscribe l st).2 s) = (subscribe l st).2 s) ∧
    (∀ (s : Store) (calls : List (SetStateInput × Option Bool)) (e : NotifyEvent),
      e ∈ (runCalls ((subscribe l st).2 s) calls).2 → e.1 ≠ l) ∧
    (∀ (s : Store) (input : SetStateInput) (replace : Option Bool) (j : Nat),
      j ∈ s.listeners → j ≠ l →
      jsIs (computeNext ((subscribe l st).2 s) input) ((subscribe l st).2 s).state = false →
      (j, (setState input replace ((subscribe l st).2 s)).1.state,
        ((subscribe l st).2 s).state) ∈ (setState input replace ((subscribe l st).2 s)).2) := by
  refine ⟨?_, ?_, ?_, ?_, ?_⟩
  · intro s
    show l ∉ s.listeners.filter (fun x => x != l)
    intro hc
    have := (List.mem_filter.mp hc).2
    simp at this
  · intro s j hj
    show j ∈ s.listeners.filter (fun x => x != l) ↔ j ∈ s.listeners
    constructor
    · intro hc; exact (List.mem_filter.mp hc).1
    · intro hc; exact List.mem_filter.mpr ⟨hc, by simpa using hj⟩
  · intro s
    have hff : ∀ t : List Nat,
        (t.filter (fun x => x != l)).filter (fun x => x != l) =
          t.filter (fun x => x != l) := by
      intro t
      rw [List.filter_filter]
      simp only [Bool.and_self]
    show ({ s with listeners :=
        (s.listeners.filter (fun x => x != l)).filter (fun x => x != l) } : Store) =
      { s with listeners := s.listeners.filter (fun x => x != l) }
    rw [hff s.listeners]
  · intro s calls e he
    have hm : e.1 ∈ s.listeners.filter (fun x => x != l) :=
      runCalls_events_mem calls ((subscribe l st).2 s) e he
    have := (List.mem_filter.mp hm).2
    intro heq
    rw [heq] at this
    simp at this
  · intro s input replace j hj hjl hacc
    rw [setState_events _ _ _ hacc]
    apply List.mem_map.mpr
    refine ⟨j, ?_, rfl⟩
    show j ∈ s.listeners.filter (fun x => x != l)
    exact List.mem_filter.mpr ⟨hj, by simpa using hjl⟩

/-- A store with listeners 1, 3, 2 registered (in that order). -/
def stG : Store :=
  { state := .num 0
    initialState := .num 0
    listeners := [1, 3, 2]
    nextObjId := 0 }

/-- Claim C6 witness: unsubscribing listener 3 removes it, leaves listener 2
registered, is idempotent, and listener 2 still receives an accepted mutation. -/
theorem subscribe_unsubscribe_contract_witness :
    (3 : Nat) ∉ ((subscribe 3 stL).2 stG).listeners ∧
    ((2 : Nat) ∈ ((subscribe 3 stL).2 stG).listeners ↔ (2 : Nat) ∈ stG.listeners) ∧
    (subscribe 3 stL).2 ((subscribe 3 stL).2 stG) = (subscribe 3 stL).2 stG ∧
    (2, (setState (.val (.num 1)) none ((subscribe 3 stL).2 stG)).1.state,
      ((subscribe 3 stL).2 stG).state) ∈
      (setState (.val (.num 1)) none ((subscribe 3 stL).2 stG)).2 :=
  ⟨(subscribe_unsubscribe_contract stL 3).1 stG,
   (subscribe_unsubscribe_contract stL 3).2.1 stG 2 (by decide),
   (subscribe_unsubscribe_contract stL 3).2.2.1 stG,
   (subscribe_unsubscribe_contract stL 3).2.2.2.2 stG (.val (.num 1)) none 2
     (by decide) (by decide) rfl⟩

/-! ### Re-entrant notification (`listeners.forEach`, line 237)

The level above models listeners as pure observers.  To settle what happens
when a listener mutates the registry *during* a notification pass, the JS
`Set` iteration protocol is modelled exactly: the set's internal insertion-
ordered storage with deletion markers (a deleted entry is skipped, an entry
added during iteration is appended and will be visited), and a cursor that
advances one slot per step.  A listener's re-entrant behaviour is a list of
registry actions it performs when invoked. -/

/-- One slot of the listener set's internal storage: the listener tag and
whether the slot is still live (deletion only marks the slot dead, keeping
the iteration cursor stable, exactly like JS `Set.prototype.delete` during
`forEach`). -/
structure Entry where
  id : Nat
  alive : Bool
deriving DecidableEq

/-- A re-entrant registry action performed by a listener while it is being
notified: `sub` models calling `subscribe`, `unsub` calling an unsubscribe
closure. -/
inductive LAction where
  | sub (id : Nat)
  | unsub (id : Nat)
deriving DecidableEq

/-- `listeners.add` during iteration: no-op if a live slot with this tag
exists, otherwise a new live slot is appended (and will be visited). -/
def entsAdd (es : List Entry) (i : Nat) : List Entry :=
  if es.any (fun e => e.alive && e.id == i) then es else es ++ [⟨i, true⟩]

/-- `listeners.delete` during iteration: live slots with this tag are marked
dead in place. -/
def entsDelete (es : List Entry) (i : Nat) : List Entry :=
  es.map (fun e => if e.id == i && e.alive then ⟨e.id, false⟩ else e)

def applyAction (es : List Entry) : LAction → List Entry
  | .sub i => entsAdd es i
  | .unsub i => entsDelete es i

def applyActions (es : List Entry) (as : List LAction) : List Entry :=
  as.foldl applyAction es

/-- `listeners.forEach((listener) => listener(state, previousState))` with
re-entrant listeners: walk the storage by cursor, invoke each live slot
(recording the tag in the log and applying the listener's registry actions),
skip dead slots.  `fuel` bounds the walk; a listener chain that keeps adding
listeners forever also loops forever in JS. -/
def notifyGo (env : Nat → List LAction) : Nat → List Entry → Nat → List Nat →
    List Entry × List Nat
  | 0, es, _, log => (es, log)
  | fuel+1, es, i, log =>
    if h : i < es.length then
      if (es.get ⟨i, h⟩).alive then
        notifyGo env fuel (applyActions es (env (es.get ⟨i, h⟩).id)) (i + 1)
          (log ++ [(es.get ⟨i, h⟩).id])
      else notifyGo env fuel es (i + 1) log
    else (es, log)

/-- The registry of a store as the set's internal storage (all slots live). -/
def entriesOf (ls : List Nat) : List Entry := ls.map (fun l => ⟨l, true⟩)

/-- Listener `b` holds no live slot. -/
def deadFor (b : Nat) (es : List Entry) : Prop :=
  ∀ e ∈ es, e.id = b → e.alive = false

/-- Listener `c` holds a live slot. -/
def aliveFor (c : Nat) (es : List Entry) : Prop :=
  ∃ e ∈ es, e.id = c ∧ e.alive = true

theorem deadFor_entsAdd (b i : Nat) (es : List Entry) (h : deadFor b es)
    (hne : i ≠ b) : deadFor b (entsAdd es i) := by
  unfold entsAdd
  split
  · exact h
  · intro e he hid
    rcases List.mem_append.mp he with h1 | h2
    · exact h e h1 hid
    · have he' : e = ⟨i, true⟩ := List.mem_singleton.mp h2
      rw [he'] at hid
      exact absurd hid hne

theorem deadFor_entsDelete (b i : Nat) (es : List Entry) (h : deadFor b es) :
    deadFor b (entsDelete es i) := by
  intro e he hid
  obtain ⟨e0, he0, hmap⟩ := List.mem_map.mp he
  by_cases hc : (e0.id == i && e0.alive) = true
  · rw [if_pos hc] at hmap
    rw [← hmap]
  · rw [if_neg hc] at hmap
    rw [← hmap] at hid ⊢
    exact h e0 he0 hid

theorem deadFor_entsDelete_self (b : Nat) (es : List Entry) :
    deadFor b (entsDelete es b) := by
  intro e he hid
  obtain ⟨e0, he0, hmap⟩ := List.mem_map.mp he
  by_cases hc : (e0.id == b && e0.alive) = true
  · rw [if_pos hc] at hmap
    rw [← hmap]
  · rw [if_neg hc] at hmap
    rw [← hmap] at hid ⊢
    have hbeq : (e0.id == b) = true := beq_iff_eq.mpr hid
    cases ha : e0.alive
    · rfl
    · refine absurd ?_ hc
      rw [hbeq, ha]
      rfl

theorem deadFor_applyAction (b : Nat) (es : List Entry) (a : LAction)
    (h : deadFor b es) (hna : a ≠ .sub b) : deadFor b (applyAction es a) := by
  cases a with
  | sub i =>
    have : i ≠ b := fun hc => hna (by rw [hc])
    exact deadFor_entsAdd b i es h this
  | unsub i => exact deadFor_entsDelete b i es h

theorem deadFor_applyActions (b : Nat) (as : List LAction) :
    ∀ es : List Entry, deadFor b es → LAction.sub b ∉ as →
      deadFor b (applyActions es as) := by
  induction as with
  | nil => intro es h _; exact h
  | cons a rest ih =>
    intro es h hns
    have hna : a ≠ .sub b := fun hc => hns (hc ▸ List.mem_cons_self a rest)
    have hns' : LAction.sub b ∉ rest := fun hc => hns (List.mem_cons_of_mem a hc)
    exact ih (applyAction es a) (deadFor_applyAction b es a h hna) hns'

theorem deadFor_kill (b : Nat) (as : List LAction) (hin : LAction.unsub b ∈ as)
    (hns : LAction.sub b ∉ as) : ∀ es : List Entry, deadFor b (applyActions es as) := by
  induction as with
  | nil => cases hin
  | cons a rest ih =>
    intro es
    have hns' : LAction.sub b ∉ rest := fun hc => hns (List.mem_cons_of_mem a hc)
    by_cases ha : a = LAction.unsub b
    · rw [ha]
      exact deadFor_applyActions b rest (entsDelete es b)
        (deadFor_entsDelete_self b es) hns'
    · have hin' : LAction.unsub b ∈ rest := by
        rcases List.mem_cons.mp hin with h1 | h2
        · exact absurd h1.symm ha
        · exact h2
      exact ih hin' hns' (applyAction es a)

theorem notifyGo_preserves (env : Nat → List LAction) (P : List Entry → Prop)
    (hP : ∀ (es : List Entry) (x : Nat), P es → P (applyActions es (env x))) :
    ∀ (fuel : Nat) (es : List Entry) (i : Nat) (log : List Nat),
      P es → P (notifyGo env fuel es i log).1 := by
  intro fuel
  induction fuel with
  | zero => intro es i log h; exact h
  | succ n ih =>
    intro es i log h
    show P (notifyGo env (n + 1) es i log).1
    rw [notifyGo]
    by_cases hlt : i < es.length
    · rw [dif_pos hlt]
      by_cases halive : (es.get ⟨i, hlt⟩).alive
      · rw [if_pos halive]
        exact ih _ _ _ (hP es _ h)
      · rw [if_neg halive]
        exact ih _ _ _ h
    · rw [dif_neg hlt]
      exact h

theorem notifyGo_log_not_mem (env : Nat → List LAction) (b : Nat)
    (hs : ∀ x, LAction.sub b ∉ env x) :
    ∀ (fuel : Nat) (es : List Entry) (i : Nat) (log : List Nat),
      deadFor b es → b ∉ log → b ∉ (notifyGo env fuel es i log).2 := by
  intro fuel
  induction fuel with
  | zero => intro es i log _ hnl; exact hnl
  | succ n ih =>
    intro es i log hd hnl
    show b ∉ (notifyGo env (n + 1) es i log).2
    rw [notifyGo]
    by_cases hlt : i < es.length
    · rw [dif_pos hlt]
      by_cases halive : (es.get ⟨i, hlt⟩).alive
      · rw [if_pos halive]
        have hid : (es.get ⟨i, hlt⟩).id ≠ b := by
          intro hc
          have hdd := hd _ (es.get_mem i hlt) hc
          rw [hdd] at halive
          exact Bool.noConfusion halive
        apply ih
        · exact deadFor_applyActions b _ es hd (hs _)
        · intro hc
          rcases List.mem_append.mp hc with h1 | h2
          · exact hnl h1
          · exact hid (List.mem_singleton.mp h2).symm
      · rw [if_neg halive]
        exact ih _ _ _ hd hnl
    · rw [dif_neg hlt]
      exact hnl

theorem notifyGo_invoked (env : Nat → List LAction) (P : List Entry → Prop)
    (a : Nat)
    (hP : ∀ (es : List Entry) (x : Nat), P es → P (applyActions es (env x)))
    (hA : ∀ es : List Entry, P (applyActions es (env a))) :
    ∀ (fuel : Nat) (es : List Entry) (i : Nat) (log : List Nat),
      a ∉ log → a ∈ (notifyGo env fuel es i log).2 →
      P (notifyGo env fuel es i log).1 := by
  intro fuel
  induction fuel with
  | zero => intro es i log hnl hin; exact absurd hin hnl
  | succ n ih =>
    intro es i log hnl hin
    rw [notifyGo] at hin ⊢
    by_cases hlt : i < es.length
    · rw [dif_pos hlt] at hin ⊢
      by_cases halive : (es.get ⟨i, hlt⟩).alive
      · rw [if_pos halive] at hin ⊢
        by_cases hea : (es.get ⟨i, hlt⟩).id = a
        · rw [hea]
          exact notifyGo_preserves env P hP n _ _ _ (hea ▸ hA es)
        · apply ih _ _ _ ?_ hin
          intro hc
          rcases List.mem_append.mp hc with h1 | h2
          · exact hnl h1
          · exact hea (List.mem_singleton.mp h2).symm
      · rw [if_neg halive] at hin ⊢
        exact ih _ _ _ hnl hin
    · rw [dif_neg hlt] at hin ⊢
      exact absurd hin hnl

theorem aliveFor_entsAdd_self (c : Nat) (es : List Entry) :
    aliveFor c (entsAdd es c) := by
  unfold entsAdd
  split
  · next hany =>
    obtain ⟨e, he, hpe⟩ := List.any_eq_true.mp hany
    simp only [Bool.and_eq_true, beq_iff_eq] at hpe
    exact ⟨e, he, hpe.2, hpe.1⟩
  · exact ⟨⟨c, true⟩, List.mem_append_right _ (List.mem_singleton.mpr rfl), rfl, rfl⟩

theorem aliveFor_applyAction (c : Nat) (es : List Entry) (a : LAction)
    (h : aliveFor c es) (hna : a ≠ .unsub c) : aliveFor c (applyAction es a) := by
  obtain ⟨e, he, hid, hal⟩ := h
  cases a with
  | sub i =>
    show aliveFor c (entsAdd es i)
    unfold entsAdd
    split
    · exact ⟨e, he, hid, hal⟩
    · exact ⟨e, List.mem_append_left _ he, hid, hal⟩
  | unsub i =>
    have hic : i ≠ c := fun hc => hna (by rw [hc])
    refine ⟨e, ?_, hid, hal⟩
    show e ∈ es.map (fun e => if e.id == i && e.alive then ⟨e.id, false⟩ else e)
    have hfe : (if e.id == i && e.alive then (⟨e.id, false⟩ : Entry) else e) = e := by
      rw [if_neg ?_]
      intro hcond
      simp only [Bool.and_eq_true, beq_iff_eq] at hcond
      exact hic (hcond.1.symm.trans hid)
    rw [← hfe]
    exact List.mem_map_of_mem _ he

theorem aliveFor_applyActions (c : Nat) (as : List LAction) :
    ∀ es : List Entry, aliveFor c es → LAction.unsub c ∉ as →
      aliveFor c (applyActions es as) := by
  induction as with
  | nil => intro es h _; exact h
  | cons a rest ih =>
    intro es h hnu
    have hna : a ≠ .unsub c := fun hc => hnu (hc ▸ List.mem_cons_self a rest)
    have hnu' : LAction.unsub c ∉ rest := fun hc => hnu (List.mem_cons_of_mem a hc)
    exact ih (applyAction es a) (aliveFor_applyAction c es a h hna) hnu'

theorem aliveFor_register (c : Nat) (as : List LAction) (hin : LAction.sub c ∈ as)
    (hnu : LAction.unsub c ∉ as) : ∀ es : List Entry, aliveFor c (applyActions es as) := by
  induction as with
  | nil => cases hin
  | cons a rest ih =>
    intro es
    have hnu' : LAction.unsub c ∉ rest := fun hc => hnu (List.mem_cons_of_mem a hc)
    by_cases ha : a = LAction.sub c
    · rw [ha]
      exact aliveFor_applyActions c rest (entsAdd es c)
        (aliveFor_entsAdd_self c es) hnu'
    · have hin' : LAction.sub c ∈ rest := by
        rcases List.mem_cons.mp hin with h1 | h2
        · exact absurd h1.symm ha
        · exact h2
      exact ih hin' hnu' (applyAction es a)

/-- Claim C7: listeners may unsubscribe or subscribe re-entrantly during a
notification pass without corrupting the iteration (the model is total, the
walk just skips dead slots and visits appended ones); in particular, once an
invoked listener `a` unsubscribes listener `b` (and nothing re-registers `b`),
`b` holds no live slot when the pass ends and is never invoked by any later
notification pass; and a listener registered during the pass holds a live slot
afterwards (unless something unsubscribes it). -/
theorem notify_reentrant_safe (st : Store) (env : Nat → List LAction)
    (fuel : Nat) (a b c : Nat)
    (hnosub : ∀ x, LAction.sub b ∉ env x)
    (hunsub : LAction.unsub b ∈ env a)
    (hinv : a ∈ (notifyGo env fuel (entriesOf st.listeners) 0 []).2) :
    deadFor b (notifyGo env fuel (entriesOf st.listeners) 0 []).1 ∧
    (∀ fuel' : Nat,
      b ∉ (notifyGo env fuel' (notifyGo env fuel (entriesOf st.listeners) 0 []).1 0 []).2) ∧
    (LAction.sub c ∈ env a → (∀ x, LAction.unsub c ∉ env x) →
      aliveFor c (notifyGo env fuel (entriesOf st.listeners) 0 []).1) := by
  have hdead : deadFor b (notifyGo env fuel (entriesOf st.listeners) 0 []).1 :=
    notifyGo_invoked env (deadFor b) a
      (fun es x h => deadFor_applyActions b (env x) es h (hnosub x))
      (fun es => deadFor_kill b (env a) hunsub (hnosub a) es)
      fuel (entriesOf st.listeners) 0 [] (List.not_mem_nil a) hinv
  refine ⟨hdead, ?_, ?_⟩
  · intro fuel'
    exact notifyGo_log_not_mem env b hnosub fuel' _ 0 [] hdead (List.not_mem_nil b)
  · intro hsc hnuc
    exact notifyGo_invoked env (aliveFor c) a
      (fun es x h => aliveFor_applyActions c (env x) es h (hnuc x))
      (fun es => aliveFor_register c (env a) hsc (hnuc a) es)
      fuel (entriesOf st.listeners) 0 [] (List.not_mem_nil a) hinv

/-- A two-listener store for the re-entrancy witness. -/
def stW7 : Store :=
  { state := .num 0
    initialState := .num 0
    listeners := [0, 1]
    nextObjId := 0 }

/-- Re-entrant behaviour for the witness: listener 0 unsubscribes listener 1
while being notified; everyone else is a pure observer. -/
def env7 : Nat → List LAction := fun n => if n = 0 then [.unsub 1] else []

/-- Claim C7 witness: on a pass over listeners 0 and 1 where listener 0
unsubscribes listener 1, listener 1 is dead afterwards and a later pass never
invokes it. -/
theorem notify_reentrant_safe_witness :
    deadFor 1 (notifyGo env7 5 (entriesOf stW7.listeners) 0 []).1 ∧
    (1 : Nat) ∉ (notifyGo env7 5 (notifyGo env7 5 (entriesOf stW7.listeners) 0 []).1 0 []).2 :=
  ⟨(notify_reentrant_safe stW7 env7 5 0 1 2
      (by intro x; by_cases hx : x = 0 <;> simp [env7, hx])
      (by simp [env7])
      (by decide)).1,
   (notify_reentrant_safe stW7 env7 5 0 1 2
      (by intro x; by_cases hx : x = 0 <;> simp [env7, hx])
      (by simp [env7])
      (by decide)).2.1 5⟩

/-- Claim C8: construction applies the initializer once to the three arguments
`(setState, getState, api)`; the resulting value seeds both `getState` and
`getInitialState`, the listener set starts empty, and the store handle `api`
exposes exactly the four operations. -/
theorem createStoreImpl_contract
    (createState :
      (SetStateInput → Option Bool → Store → Store × List NotifyEvent) →
      (Store → Value) → StoreApi → Value)
    (firstObjId : Nat) :
    getState (createStoreImpl createState firstObjId) =
      createState setState getState api ∧
    getInitialState (createStoreImpl createState firstObjId) =
      createState setState getState api ∧
    (createStoreImpl createState firstObjId).listeners = [] ∧
    api.setState = setState ∧ api.getState = getState ∧
    api.getInitialState = getInitialState ∧ api.subscribe = subscribe :=
  ⟨rfl, rfl, rfl, rfl, rfl, rfl, rfl⟩

/-! ### Persistence hydration (persist middleware)

The persist middleware's implementation is not part of the sources here; only
its design is (spec §4.6/§7 and the persist notes: `PersistOptions`,
`onRehydrateStorage`, the `{state, version}` envelope, `migrate`, `merge`).
The hydration step is therefore modelled from the spec. -/

/-- The persisted envelope `{ state, version }` read from typed storage. -/
structure Envelope where
  state : Value
  version : Int

/-- The hydration status of a store instance:
`NotStarted | InProgress | Completed(success|error)`. -/
inductive HydrationStatus where
  | notStarted
  | inProgress
  | completedSuccess
  | completedError (e : String)

/-- The observable outcome of one hydration attempt: the in-memory state after
the attempt, the status it transitions to, and the argument pair
`(finalState | undefined, error | undefined)` passed to the hydration-finished
callbacks. -/
structure HydrationOutcome where
  finalState : Value
  status : HydrationStatus
  callbackArg : Option Value × Option String

/-- Modelled from the spec: the persist middleware's hydration attempt, whose
implementation is absent from the sources.  Per spec §4.6/§7 it loads the
envelope from typed storage (`load` is the outcome of the read plus
deserialization, an error being a storage read/parse failure), migrates when
the persisted version differs from the current one, merges the persisted value
with the current in-memory state, and reports: on any error the attempt
completes as `Completed(error)`, the hydration-finished callbacks receive
`(undefined, error)`, and the in-memory state is left as it was; errors are
returned in the outcome, never thrown (the function is total). -/
def hydrate (current : Value) (load : Except String (Option Envelope))
    (migrate : Value → Int → Except String Value) (currentVersion : Int)
    (merge : Value → Value → Except String Value) : HydrationOutcome :=
  match load with
  | .error e => ⟨current, .completedError e, (none, some e)⟩
  | .ok none => ⟨current, .completedSuccess, (some current, none)⟩
  | .ok (some envl) =>
    match (if envl.version != currentVersion then migrate envl.state envl.version
           else .ok envl.state) with
    | .error e => ⟨current, .completedError e, (none, some e)⟩
    | .ok mv =>
      match merge mv current with
      | .error e => ⟨current, .completedError e, (none, some e)⟩
      | .ok merged => ⟨merged, .completedSuccess, (some merged, none)⟩

/-- Claim C9: a storage read or deserialization failure during hydration is
never thrown out of construction — `hydrate` always returns an outcome — and
in that outcome hydration is `Completed(error)`, the hydration-finished
callbacks receive `(undefined, error)`, and the in-memory state is exactly the
pre-hydration state. -/
theorem hydrate_load_error_completed (current : Value)
    (migrate : Value → Int → Except String Value) (currentVersion : Int)
    (merge : Value → Value → Except String Value) (e : String) :
    hydrate current (.error e) migrate currentVersion merge =
      ⟨current, .completedError e, (none, some e)⟩ := rfl

/-- Claim C10: an accepted merging `setState` (object candidate, replace not
`true`) allocates a fresh object — distinct by identity from both the previous
snapshot and the candidate — whose fields are copies produced by
`Object.assign`, and the initial snapshot is untouched. -/
theorem setState_merge_allocates_fresh (st : Store) (cid : Nat)
    (cfs : List (String × Value)) (replace : Option Bool)
    (hne : jsIs (Value.obj cid cfs) st.state = false)
    (hrep : replace ≠ some true)
    (hwf : ∀ i fs', st.state = Value.obj i fs' → i < st.nextObjId)
    (hcid : cid < st.nextObjId) :
    (setState (.val (.obj cid cfs)) replace st).1.state =
      Value.obj st.nextObjId (objectAssign st.state (Value.obj cid cfs)) ∧
    (setState (.val (.obj cid cfs)) replace st).1.state ≠ st.state ∧
    (setState (.val (.obj cid cfs)) replace st).1.state ≠ Value.obj cid cfs ∧
    jsIs (setState (.val (.obj cid cfs)) replace st).1.state st.state = false ∧
    jsIs (setState (.val (.obj cid cfs)) replace st).1.state (Value.obj cid cfs) = false ∧
    (setState (.val (.obj cid cfs)) replace st).1.initialState = st.initialState := by
  have hrep' : replace.getD (nonMergeable (computeNext st (.val (.obj cid cfs)))) = false := by
    cases replace with
    | none => rfl
    | some b =>
      cases b with
      | false => rfl
      | true => exact absurd rfl hrep
  have hmerge :
      (setState (.val (.obj cid cfs)) replace st).1.state =
        Value.obj st.nextObjId (objectAssign st.state (Value.obj cid cfs)) :=
    setState_state_merge _ _ _ hne hrep'
  refine ⟨hmerge, ?_, ?_, ?_, ?_, setState_initialState _ _ _⟩
  · rw [hmerge]
    intro h
    cases hs : st.state with
    | obj i fs' =>
      rw [hs] at h
      have hii : st.nextObjId = i := (Value.obj.injEq _ _ _ _).mp h |>.1
      have := hwf i fs' hs
      omega
    | num n => rw [hs] at h; exact Value.noConfusion h
    | str s => rw [hs] at h; exact Value.noConfusion h
    | bool b => rw [hs] at h; exact Value.noConfusion h
    | null => rw [hs] at h; exact Value.noConfusion h
    | undefined => rw [hs] at h; exact Value.noConfusion h
  · rw [hmerge]
    intro h
    have hii : st.nextObjId = cid := (Value.obj.injEq _ _ _ _).mp h |>.1
    omega
  · rw [hmerge]
    cases hs : st.state with
    | obj i fs' =>
      show (st.nextObjId == i) = false
      rw [beq_eq_false_iff_ne]
      have := hwf i fs' hs
      omega
    | num n => rfl
    | str s => rfl
    | bool b => rfl
    | null => rfl
    | undefined => rfl
  · rw [hmerge]
    show (st.nextObjId == cid) = false
    rw [beq_eq_false_iff_ne]
    omega

/-- Claim C10 witness: merging `{a: 1}` (identity 5) into `{a: 0, b: 2}`
(identity 0) on a store whose allocator is at 10 yields an object that is a
new identity, different from both inputs. -/
theorem setState_merge_allocates_fresh_witness :
    (setState (.val (.obj 5 [("a", .num 1)])) none stF).1.state ≠ stF.state ∧
    (setState (.val (.obj 5 [("a", .num 1)])) none stF).1.state ≠
      Value.obj 5 [("a", .num 1)] ∧
    (setState (.val (.obj 5 [("a", .num 1)])) none stF).1.initialState =
      stF.initialState :=
  ⟨(setState_merge_allocates_fresh stF 5 [("a", .num 1)] none rfl nofun
      (by intro i fs' h; cases h; decide) (by decide)).2.1,
   (setState_merge_allocates_fresh stF 5 [("a", .num 1)] none rfl nofun
      (by intro i fs' h; cases h; decide) (by decide)).2.2.1,
   (setState_merge_allocates_fresh stF 5 [("a", .num 1)] none rfl nofun
      (by intro i fs' h; cases h; decide) (by decide)).2.2.2.2.2⟩
